import Mathlib

/-!
Verification of `vislab/dataset.py` (train/test splitting, label filtering,
subsampling, image-filename resolution) against its specification.

The Python source is shallowly embedded below.  Conventions:

* pandas tables are records of a row-identifier index plus named columns,
  with columns aligned positionally with the index (pandas guarantees all
  columns have the index's length; column names are assumed unique, the
  data-model invariant, so name-based column access coincides with the
  positional access used here);
* the NumPy global random generator is modelled by a `Rng` bundle of draw
  functions on an abstract stream state `Nat`, together with the facts the
  NumPy functions guarantee (`np.random.permutation` yields a permutation
  of `range N`, `np.random.shuffle` permutes its argument,
  `np.random.choice(l, k, replace=False)` returns `k` elements of `l`);
  `np.random.seed(s)` replaces the global state by a state derived from
  `s` alone, which `npSeed` captures;
* Python floats are modelled as rationals, with Python-2 `round` (half away
  from zero) as `pyRound`; machine-float rounding noise is not modelled;
* fallible operations return `Option`/`Except` (a pandas/NumPy exception or a
  failed `assert` becomes `none`/`.error`).
-/

namespace Vislab

/-- Python 2 `round`: round half away from zero, as an integer. -/
def pyRound (q : ℚ) : ℤ := if 0 ≤ q then ⌊q + 1/2⌋ else ⌈q - 1/2⌉

/-- `np.random.seed(s)`: the global generator state after seeding is a
function of the seed alone; the prior global state `g` is discarded. -/
def npSeed (g : Nat) (s : Nat) : Nat := s

/-- The NumPy global random generator: draw functions on a stream state,
bundled with the guarantees NumPy provides for them.
`perm st n` is `np.random.permutation(n)`, `shuf st l` is
`np.random.shuffle(l)` (returning the shuffled list), and
`choice st l k` is `np.random.choice(l, k, replace=False)`. -/
structure Rng where
  perm : Nat → Nat → List Nat
  shuf : Nat → List String → List String
  choice : Nat → List String → Nat → List String
  perm_isPerm : ∀ st n, (perm st n).Perm (List.range n)
  shuf_isPerm : ∀ st l, (shuf st l).Perm l
  choice_subset : ∀ st l k x, x ∈ choice st l k → x ∈ l
  choice_length : ∀ st l k, k ≤ l.length → (choice st l k).length = k

/-- A concrete `Rng` used to evaluate the embedding on closed inputs:
the identity permutation, identity shuffle, and prefix choice. -/
def idRng : Rng where
  perm := fun _ n => List.range n
  shuf := fun _ l => l
  choice := fun _ l k => l.take k
  perm_isPerm := fun _ _ => List.Perm.refl _
  shuf_isPerm := fun _ _ => List.Perm.refl _
  choice_subset := fun _ _ _ _ h => List.mem_of_mem_take h
  choice_length := fun _ l k h => by simp [List.length_take]; omega

/-- A pandas `DataFrame` of boolean label columns: a row-identifier index
and named boolean columns aligned positionally with the index. -/
structure BoolDF where
  index : List String
  cols : List (String × List Bool)
deriving DecidableEq

/-- `l.iloc[p]`-style positional gather: pick the entries of `l` at the
positions in `p` (positions out of range contribute nothing;
for the permutations produced by NumPy all positions are in range). -/
def reorder {α : Type} (l : List α) (p : List Nat) : List α :=
  p.filterMap (fun i => l[i]?)

/-- `df.iloc[p]` for a boolean table: reorder the index and every column. -/
def boolReindex (df : BoolDF) (p : List Nat) : BoolDF :=
  ⟨reorder df.index p, df.cols.map (fun c => (c.1, reorder c.2 p))⟩

/-- `np.where(v)[0]`: the positions at which a boolean column is true,
in increasing order. -/
def trueIdx (v : List Bool) : List Nat :=
  (List.range v.length).filter (fun i => v.getD i false)

/-- Minimum of a list of naturals (`counts[counts.argmin()]`);
`none` on the empty list, where NumPy/pandas raise. -/
def listMin : List Nat → Option Nat
  | [] => none
  | a :: t => some (t.foldl Nat.min a)

/-- All intermediate values of one run of `get_train_test_split`,
exposed so that theorems can speak about the branch taken. -/
structure SplitTrace where
  outIndex : List String
  balanced : List String
  numTest : ℤ
  numToAdd : ℤ
  testSet : List String
  assignment : List (String × String)
deriving DecidableEq

/-- The body of `get_train_test_split` (dataset.py lines 17-44), retaining
its intermediate values.  Steps, in source order: seed the generator;
shuffle the table; per-column true counts; `min_count` =
`int(round(counts.min() * test_frac))`; concatenate, per column, the first
`min_count` shuffled row identifiers true in that column (the concatenation
is NOT deduplicated, exactly as `np.concatenate(...).tolist()` is not);
`remaining_ind` = index set-minus balanced set, shuffled (the set difference
is modelled as an order-preserving filter; the order is immediately
destroyed by the shuffle, so it is unobservable); `num_test` =
`int(round(N * test_frac))`; if `num_to_add > 0` extend the balanced list
from `remaining_ind`, else redraw `num_test` identifiers from the balanced
list without replacement; finally build the `_split` series: `'train'`
everywhere, then `'test'` at the labels of the test list (every such label
is a member of the index — slice labels and set-difference labels by
construction, `np.random.choice` results by `Rng.choice_subset` — so the
label assignment is the membership map below).  `none` exactly when the
table has no columns (`argmin` of an empty sequence raises). -/
def splitCore (rng : Rng) (st : Nat) (df2 : BoolDF) (N : Nat) (test_frac : ℚ)
    (m : Nat) : SplitTrace :=
  let min_count := (pyRound ((m : ℚ) * test_frac)).toNat
  let balanced := df2.cols.flatMap
    (fun c => ((trueIdx c.2).take min_count).filterMap
      (fun i => df2.index[i]?))
  let remaining := df2.index.filter (fun id => ¬ id ∈ balanced)
  let shuffled := rng.shuf (st + 1) remaining
  let numTest := pyRound ((N : ℚ) * test_frac)
  let numToAdd := numTest - balanced.length
  let testSet :=
    if 0 < numToAdd then balanced ++ shuffled.take numToAdd.toNat
    else rng.choice (st + 2) balanced numTest.toNat
  ⟨df2.index, balanced, numTest, numToAdd, testSet,
    df2.index.map (fun id => (id, if id ∈ testSet then "test" else "train"))⟩

/-- See `splitCore` above for the branch bodies; `splitTrace` shuffles the
table, computes the per-column counts and their minimum (raising — `none` —
on a table with no columns), and hands over to `splitCore`. -/
def splitTrace (rng : Rng) (g : Nat) (df : BoolDF) (test_frac : ℚ)
    (random_seed : Nat) : Option SplitTrace :=
  let st := npSeed g random_seed
  let N := df.index.length
  let df2 := boolReindex df (rng.perm st N)
  (listMin (df2.cols.map (fun c => c.2.count true))).map
    (splitCore rng st df2 N test_frac)

/-- `get_train_test_split(df_, test_frac, random_seed)` (dataset.py 17-44):
the returned `_split` series as (identifier, value) pairs in index order.
`g` is the global NumPy generator state at call time. -/
def get_train_test_split (rng : Rng) (g : Nat) (df : BoolDF) (test_frac : ℚ)
    (random_seed : Nat) : Option (List (String × String)) :=
  (splitTrace rng g df test_frac random_seed).map SplitTrace.assignment

/-! ### Supporting lemmas -/

attribute [local semireducible] Rat.mul Rat.add Rat.sub Rat.inv

theorem listMin_eq_none {L : List Nat} : listMin L = none ↔ L = [] := by
  cases L <;> simp [listMin]

theorem listMin_isSome {L : List Nat} (h : L ≠ []) : ∃ m, listMin L = some m := by
  cases L with
  | nil => exact absurd rfl h
  | cons a t => exact ⟨_, rfl⟩

theorem filterMap_getElem_range {α : Type} (l : List α) :
    (List.range l.length).filterMap (fun i => l[i]?) = l := by
  induction l with
  | nil => simp
  | cons a t ih =>
    rw [List.length_cons, List.range_succ_eq_map, List.filterMap_cons,
      List.filterMap_map]
    simp only [List.getElem?_cons_zero, Function.comp_def,
      List.getElem?_cons_succ]
    rw [ih]

theorem reorder_perm {α : Type} (l : List α) (p : List Nat)
    (hp : p.Perm (List.range l.length)) : (reorder l p).Perm l := by
  have h := hp.filterMap (fun i => l[i]?)
  rwa [filterMap_getElem_range] at h

theorem boolReindex_index_perm (rng : Rng) (st : Nat) (df : BoolDF) :
    (boolReindex df (rng.perm st df.index.length)).index.Perm df.index :=
  reorder_perm df.index _ (rng.perm_isPerm st df.index.length)

/-! ### C1: the split covers the input identifiers with train/test values -/

/-- C1.  For every boolean-label table with at least one column and at least
one row (with unique row identifiers, the data-model invariant), and any
generator, global state, test fraction and seed, `get_train_test_split`
succeeds and returns an assignment whose identifiers are exactly the input's
row identifiers, each appearing exactly once, with every value in
{"train", "test"}. -/
theorem split_assignment_covers_index (rng : Rng) (g : Nat) (df : BoolDF)
    (tf : ℚ) (s : Nat) (hcols : df.cols ≠ []) (hrows : df.index ≠ [])
    (hnd : df.index.Nodup) :
    ∃ r, get_train_test_split rng g df tf s = some r ∧
      (r.map Prod.fst).Perm df.index ∧ (r.map Prod.fst).Nodup ∧
      ∀ p ∈ r, p.2 = "train" ∨ p.2 = "test" := by
  have hdf2cols :
      ((boolReindex df (rng.perm (npSeed g s) df.index.length)).cols.map
        (fun c => c.2.count true)) ≠ [] := by
    simp [boolReindex, hcols]
  obtain ⟨m, hm⟩ := listMin_isSome hdf2cols
  simp only [get_train_test_split, splitTrace]
  rw [hm]
  simp only [Option.map_some']
  refine ⟨_, rfl, ?_, ?_, ?_⟩ <;>
    simp only [splitCore] <;>
    set df2 := boolReindex df (rng.perm (npSeed g s) df.index.length) with hdf2
  · have hperm : df2.index.Perm df.index := boolReindex_index_perm rng _ df
    simpa [List.map_map, Function.comp_def] using hperm
  · have hperm : df2.index.Perm df.index := boolReindex_index_perm rng _ df
    have hn : df2.index.Nodup := (hperm.nodup_iff).mpr hnd
    simpa [List.map_map, Function.comp_def] using hn
  · intro p hp
    simp only [List.mem_map] at hp
    obtain ⟨id, _, rfl⟩ := hp
    exact Or.symm (ite_eq_or_eq _ _ _)

/-! ### C3: determinism (independence from the pre-call generator state) -/

/-- C3.  `get_train_test_split` is deterministic: the only state that could
differ between two calls with identical arguments is the NumPy global
generator state `g`, and because the function begins by reseeding
(`npSeed` discards `g`), the result is identical for any two global
states — two calls with the same table, fraction and seed agree
bit for bit. -/
theorem split_deterministic (rng : Rng) (g g2 : Nat) (df : BoolDF) (tf : ℚ)
    (s : Nat) :
    get_train_test_split rng g df tf s = get_train_test_split rng g2 df tf s :=
  rfl

/-- Concrete table for exercising C1. -/
def exC1 : BoolDF :=
  ⟨["a", "b", "c", "d"],
   [("A", [true, false, true, false]), ("B", [false, true, false, false])]⟩

/-- Witness for C1: the coverage theorem applied at a concrete table,
generator and arguments, with every hypothesis discharged by computation. -/
theorem split_assignment_covers_index_witness :
    ∃ r, get_train_test_split idRng 0 exC1 (1/5) 42 = some r ∧
      (r.map Prod.fst).Perm exC1.index ∧ (r.map Prod.fst).Nodup ∧
      ∀ p ∈ r, p.2 = "train" ∨ p.2 = "test" :=
  split_assignment_covers_index idRng 0 exC1 (1/5) 42 (by decide) (by decide)
    (by decide)

/-! ### C2: size of the test partition in the first branch of step 6 -/

theorem countP_mem_eq_dedup_length {l t : List String} (hl : l.Nodup)
    (ht : ∀ x ∈ t, x ∈ l) :
    l.countP (fun x => decide (x ∈ t)) = t.dedup.length := by
  rw [List.countP_eq_length_filter]
  have hperm : (l.filter (fun x => decide (x ∈ t))).Perm t.dedup := by
    rw [List.perm_ext_iff_of_nodup (hl.filter _) t.nodup_dedup]
    intro a
    simp only [List.mem_filter, List.mem_dedup, decide_eq_true_eq]
    exact ⟨fun h => h.2, fun h => ⟨ht a h, h⟩⟩
  exact hperm.length_eq

theorem countP_test_map (index t : List String) :
    (index.map (fun id => (id, if id ∈ t then "test" else "train"))).countP
      (fun p => p.2 == "test") = index.countP (fun id => decide (id ∈ t)) := by
  rw [List.countP_map]
  apply List.countP_congr
  intro x _
  by_cases h : x ∈ t <;> simp [h, Function.comp_def]

/-- Count of "test" values in the assignment built from a test list
`balanced ++ added` of distinct identifiers all drawn from the index. -/
theorem count_test_append (index balanced added : List String)
    (hnd : index.Nodup)
    (hb : ∀ x ∈ balanced, x ∈ index)
    (ha : ∀ x ∈ added, x ∈ index)
    (hbnd : balanced.Nodup) (hand : added.Nodup)
    (hdisj : ∀ x ∈ added, ¬ x ∈ balanced) :
    (index.map
      (fun id => (id, if id ∈ balanced ++ added then "test" else "train"))).countP
        (fun p => p.2 == "test") = balanced.length + added.length := by
  rw [countP_test_map, countP_mem_eq_dedup_length hnd ?ht]
  case ht =>
    intro x hx
    rcases List.mem_append.mp hx with h | h
    exacts [hb x h, ha x h]
  have hnodup : (balanced ++ added).Nodup := by
    rw [List.nodup_append]
    exact ⟨hbnd, hand, fun x hx hx2 => hdisj x hx2 hx⟩
  rw [List.dedup_eq_self.mpr hnodup, List.length_append]

theorem pyRound_le_of_le_nat {q : ℚ} {n : ℕ} (h0 : 0 ≤ q) (h : q ≤ n) :
    pyRound q ≤ n := by
  rw [pyRound, if_pos h0]
  have h1 : ⌊q + 1/2⌋ ≤ ⌊(n : ℚ) + 1/2⌋ := Int.floor_le_floor (by linarith)
  have h2 : ⌊(n : ℚ) + 1/2⌋ = n := by
    rw [show ((n : ℚ) + 1/2) = 1/2 + ((n : ℤ) : ℚ) by push_cast; ring,
      Int.floor_add_int]
    norm_num
  omega

/-- Elements of the balanced list are members of the (shuffled) index:
the list is a concatenation of `df_.index[...]` lookups. -/
theorem balanced_subset (df2 : BoolDF) (mc : Nat) {x : String}
    (hx : x ∈ df2.cols.flatMap
      (fun c => ((trueIdx c.2).take mc).filterMap (fun i => df2.index[i]?))) :
    x ∈ df2.index := by
  simp only [List.mem_flatMap, List.mem_filterMap] at hx
  obtain ⟨c, _, i, _, hi⟩ := hx
  exact List.getElem?_mem hi

theorem length_filter_not_mem (index balanced : List String)
    (hnd : index.Nodup) (hb : ∀ x ∈ balanced, x ∈ index)
    (hbnd : balanced.Nodup) :
    (index.filter (fun id => ¬ id ∈ balanced)).length =
      index.length - balanced.length := by
  have h1 : index.countP (fun x => decide (x ∈ balanced)) = balanced.length := by
    rw [countP_mem_eq_dedup_length hnd hb, List.dedup_eq_self.mpr hbnd]
  have key : ∀ l : List String,
      (l.filter (fun id => ¬ id ∈ balanced)).length +
        l.countP (fun x => decide (x ∈ balanced)) = l.length := by
    intro l
    induction l with
    | nil => simp
    | cons a t ih =>
      rcases Decidable.em (a ∈ balanced) with h | h
      · rw [List.filter_cons_of_neg (by simpa using h),
          List.countP_cons_of_pos _ _ (by simpa using h)]
        simp only [List.length_cons]
        omega
      · rw [List.filter_cons_of_pos (by simpa using h),
          List.countP_cons_of_neg _ _ (by simpa using h)]
        simp only [List.length_cons]
        omega
  have h2 := key index
  omega

/-- C2 (amended).  When `get_train_test_split` takes the first branch of
step 6 (`num_to_add > 0`) AND the concatenated per-label balanced list
contains no duplicate row identifiers, the number of identifiers assigned
"test" equals `round(test_fraction * N)` exactly (row identifiers unique,
`0 ≤ test_fraction ≤ 1`). -/
theorem split_test_size_eq_of_nodup (rng : Rng) (g : Nat) (df : BoolDF)
    (tf : ℚ) (s : Nat) (tr : SplitTrace)
    (h : splitTrace rng g df tf s = some tr)
    (hnd : df.index.Nodup)
    (hbr : 0 < tr.numToAdd)
    (hdup : tr.balanced.Nodup)
    (htf0 : 0 ≤ tf) (htf1 : tf ≤ 1) :
    (tr.assignment.countP (fun p => p.2 == "test") : ℤ) =
      pyRound ((df.index.length : ℚ) * tf) := by
  simp only [splitTrace, Option.map_eq_some'] at h
  obtain ⟨m, hm, hcore⟩ := h
  subst hcore
  simp only [splitCore] at hbr hdup ⊢
  rw [if_pos hbr]
  set st := npSeed g s with hst
  set N := df.index.length with hN
  set df2 := boolReindex df (rng.perm st N) with hdf2
  set mc := (pyRound ((m : ℚ) * tf)).toNat with hmc
  set balanced := df2.cols.flatMap
    (fun c => ((trueIdx c.2).take mc).filterMap (fun i => df2.index[i]?))
    with hbal
  set remaining := df2.index.filter (fun id => ¬ id ∈ balanced) with hrem
  set shuffled := rng.shuf (st + 1) remaining with hshuf
  set numTest := pyRound ((N : ℚ) * tf) with hnt
  set added := shuffled.take (numTest - (balanced.length : ℤ)).toNat with hadd
  -- basic structural facts
  have hnd2 : df2.index.Nodup :=
    ((boolReindex_index_perm rng st df).nodup_iff).mpr hnd
  have hbsub : ∀ x ∈ balanced, x ∈ df2.index := fun x hx =>
    balanced_subset df2 mc hx
  have hshufperm : shuffled.Perm remaining := rng.shuf_isPerm (st + 1) remaining
  have hremnd : remaining.Nodup := hnd2.filter _
  have hshufnd : shuffled.Nodup := (hshufperm.nodup_iff).mpr hremnd
  have handd : added.Nodup := (List.take_sublist _ _).nodup hshufnd
  have hasub : ∀ x ∈ added, x ∈ remaining := fun x hx =>
    hshufperm.mem_iff.mp (List.mem_of_mem_take hx)
  have hasub2 : ∀ x ∈ added, x ∈ df2.index := fun x hx =>
    (List.mem_filter.mp (hasub x hx)).1
  have hdisj : ∀ x ∈ added, ¬ x ∈ balanced := fun x hx => by
    have h2 := (List.mem_filter.mp (hasub x hx)).2
    simpa using h2
  -- the count of "test" values
  have hcount := count_test_append df2.index balanced added hnd2 hbsub hasub2
    hdup handd hdisj
  rw [hcount]
  -- sizes
  have hlen2 : df2.index.length = N := (boolReindex_index_perm rng st df).length_eq
  have hballe : balanced.length ≤ N := by
    have h1 : df2.index.countP (fun x => decide (x ∈ balanced)) =
        balanced.length := by
      rw [countP_mem_eq_dedup_length hnd2 hbsub, List.dedup_eq_self.mpr hdup]
    have h2 := List.countP_le_length (p := fun x => decide (x ∈ balanced))
      (l := df2.index)
    omega
  have hremlen : remaining.length = N - balanced.length := by
    rw [hrem, length_filter_not_mem df2.index balanced hnd2 hbsub hdup, hlen2]
  have hntle : numTest ≤ N :=
    pyRound_le_of_le_nat (by positivity)
      (by rw [hN]; nlinarith [Nat.cast_nonneg (α := ℚ) df.index.length])
  have haddlen : added.length = (numTest - (balanced.length : ℤ)).toNat := by
    rw [hadd, List.length_take, hshufperm.length_eq, hremlen]
    omega
  rw [haddlen]
  push_cast
  omega

/-- Concrete table refuting C2 as stated: row "a" is true in both labels,
so the balanced concatenation `["a", "a"]` double-counts it. -/
def exC2 : BoolDF :=
  ⟨["a", "b", "c", "d", "e", "f", "g", "h", "i", "j"],
   [("A", [true, true, false, false, false, false, false, false, false, false]),
    ("B", [true, false, true, false, false, false, false, false, false, false])]⟩

/-- The trace of the refuting run. -/
def exC2Trace : SplitTrace :=
  (splitTrace idRng 0 exC2 (1/2) 42).getD ⟨[], [], 0, 0, [], []⟩

/-- C2 counterexample.  On `exC2` with `test_frac = 1/2`, the first branch
of step 6 is taken (`num_to_add = 3 > 0`), yet only 4 identifiers are
assigned "test" while `round(test_frac * N) = round(0.5 * 10) = 5`: the
duplicated identifier "a" in the balanced concatenation inflates
`len(test_balanced_set)` without adding a second distinct test row. -/
theorem split_test_size_counterexample :
    splitTrace idRng 0 exC2 (1/2) 42 = some exC2Trace ∧
    0 < exC2Trace.numToAdd ∧
    (exC2Trace.assignment.countP (fun p => p.2 == "test") : ℤ) ≠
      pyRound ((exC2.index.length : ℚ) * (1/2)) := by
  refine ⟨rfl, by decide, ?_⟩
  decide

/-- Concrete table with disjoint labels for exercising the amended C2. -/
def exC2nodup : BoolDF :=
  ⟨["a", "b", "c", "d", "e", "f", "g", "h", "i", "j"],
   [("A", [true, true, false, false, false, false, false, false, false, false]),
    ("B", [false, false, true, true, false, false, false, false, false, false])]⟩

/-- The trace of the amended-C2 witness run. -/
def exC2nodupTrace : SplitTrace :=
  (splitTrace idRng 0 exC2nodup (1/2) 42).getD ⟨[], [], 0, 0, [], []⟩

/-- Witness for the amended C2: a run with pairwise-disjoint labels takes
the first branch and the "test" count equals `round(test_frac * N)`. -/
theorem split_test_size_eq_of_nodup_witness :
    (exC2nodupTrace.assignment.countP (fun p => p.2 == "test") : ℤ) =
      pyRound ((exC2nodup.index.length : ℚ) * (1/2)) :=
  split_test_size_eq_of_nodup idRng 0 exC2nodup (1/2) 42 exC2nodupTrace
    (by decide) (by decide) (by decide) (by decide) (by decide) (by decide)

/-! ### The label filter: `get_bool_df` (dataset.py lines 47-78) -/

/-- A pandas `DataFrame` with categorical string columns: a row-identifier
index and named columns of optional strings (`none` models NaN). -/
structure DataFrame where
  index : List String
  cols : List (String × List (Option String))
deriving DecidableEq

/-- Distinct values of a list in first-occurrence order. -/
def uniqFirst (l : List String) : List String := (l.reverse.dedup).reverse

/-- Insert a (value, count) pair in front of the first entry with a count
not larger than its own. -/
def insertDesc (p : String × Nat) : List (String × Nat) → List (String × Nat)
  | [] => [p]
  | q :: t => if q.2 ≤ p.2 then p :: q :: t else q :: insertDesc p t

/-- Insertion sort by descending count. -/
def sortDesc : List (String × Nat) → List (String × Nat)
  | [] => []
  | p :: t => insertDesc p (sortDesc t)

/-- `Series.value_counts()`: the distinct values paired with their
frequencies, in descending frequency order (the order among ties is not
specified by pandas and nothing below depends on it). -/
def value_counts (l : List String) : List (String × Nat) :=
  sortDesc ((uniqFirst l).map (fun v => (v, l.count v)))

/-- `val.replace(' ', '_').encode('ascii', 'ignore')`: spaces become
underscores, then non-ASCII characters are dropped. -/
def asciiName (v : String) : String :=
  ⟨(v.data.map (fun ch => if ch = ' ' then '_' else ch)).filter
    (fun ch => ch.toNat < 128)⟩

/-- The derived boolean column name: prefixed by the source column name and
an underscore when that name is non-empty (dataset.py lines 74-76). -/
def colName (c : String) (v : String) : String :=
  if 0 < c.length then c ++ "_" ++ asciiName v else asciiName v

/-- `bool_df[name] = column`: pandas column assignment replaces an existing
column of that name in place, else appends a new one. -/
def dfAssign (cols : List (String × List Bool)) (n : String) (v : List Bool) :
    List (String × List Bool) :=
  if cols.any (fun c => c.1 == n) then
    cols.map (fun c => if c.1 == n then (n, v) else c)
  else cols ++ [(n, v)]

/-- `df.dropna(subset=[column_name])` restricted to what the function uses:
the (identifier, value) pairs of the rows whose value is present. -/
def colRows (index : List String) (cv : List (Option String)) :
    List (String × String) :=
  (index.zip cv).filterMap (fun p => p.2.map (fun v => (p.1, v)))

/-- The surviving values `vals` (dataset.py lines 63-68): the keys of
`value_counts`, restricted to frequencies `>= min_positive_examples` when
filtering is enabled (`min_positive_examples > 0`). -/
def boolValsOf (index : List String) (cv : List (Option String)) (m : ℤ) :
    List String :=
  let freqs := value_counts ((colRows index cv).map Prod.snd)
  let freqs2 := if 0 < m then freqs.filter (fun p => m ≤ (p.2 : ℤ)) else freqs
  freqs2.map Prod.fst

/-- The body of `get_bool_df` after the column-presence assert
(dataset.py lines 61-78): drop NA rows, compute surviving values, drop rows
with non-surviving values, then assign one indicator column per surviving
value under its derived ASCII name (later assignments overwrite earlier
ones of the same name, as pandas column assignment does). -/
def boolDFOf (index : List String) (cv : List (Option String)) (cname : String)
    (m : ℤ) : BoolDF :=
  let rows := colRows index cv
  let vals := boolValsOf index cv m
  let rows2 := rows.filter (fun r => r.2 ∈ vals)
  ⟨rows2.map Prod.fst,
   vals.foldl
     (fun acc v => dfAssign acc (colName cname v)
       (rows2.map (fun r => r.2 == v))) []⟩

/-- `get_bool_df(df, column_name, min_positive_examples)`
(dataset.py 47-78); `none` exactly when the `assert(column_name in
df.columns)` fails. -/
def get_bool_df (df : DataFrame) (column_name : String)
    (min_positive_examples : ℤ) : Option BoolDF :=
  ((df.cols.find? (fun c => c.1 == column_name)).map Prod.snd).map
    (fun cv => boolDFOf df.index cv column_name min_positive_examples)

/-! ### C9: failure exactly on an absent column -/

/-- C9.  `get_bool_df` signals an error (here: `none`, modelling the failed
assert) if and only if `column_name` is absent from the dataset's columns;
whenever the column is present it succeeds, whatever the data — in
particular an empty result table is a valid outcome. -/
theorem bool_df_error_iff_column_absent (df : DataFrame) (cname : String)
    (m : ℤ) :
    (get_bool_df df cname m).isSome ↔ cname ∈ df.cols.map Prod.fst := by
  unfold get_bool_df
  simp only [Option.isSome_map']
  rw [List.find?_isSome]
  simp only [List.mem_map, beq_iff_eq]

/-! ### Lemmas on the assignment fold and `value_counts` -/

theorem dfAssign_mem {cols : List (String × List Bool)} {n : String}
    {v : List Bool} {c : String × List Bool} (h : c ∈ dfAssign cols n v) :
    c ∈ cols ∨ c = (n, v) := by
  unfold dfAssign at h
  by_cases hc : cols.any (fun x => x.1 == n)
  · rw [if_pos hc] at h
    obtain ⟨x, hx, hfx⟩ := List.mem_map.mp h
    by_cases h2 : x.1 == n
    · right; rw [if_pos h2] at hfx; exact hfx.symm
    · left; rw [if_neg h2] at hfx; exact hfx ▸ hx
  · rw [if_neg hc] at h
    rcases List.mem_append.mp h with h3 | h3
    · exact Or.inl h3
    · right; simpa using h3

/-- Every column of the assignment fold comes either from the initial
accumulator or is the (name, indicator) pair of one of the folded values. -/
theorem foldl_dfAssign_mem (nameOf : String → String)
    (colOf : String → List Bool) (items : List String) :
    ∀ (acc : List (String × List Bool)) (c : String × List Bool),
      c ∈ items.foldl (fun a v => dfAssign a (nameOf v) (colOf v)) acc →
      c ∈ acc ∨ ∃ v ∈ items, c = (nameOf v, colOf v) := by
  induction items with
  | nil => intro acc c h; exact Or.inl h
  | cons it t ih =>
    intro acc c h
    simp only [List.foldl_cons] at h
    rcases ih _ c h with h2 | h2
    · rcases dfAssign_mem h2 with h3 | h3
      · exact Or.inl h3
      · exact Or.inr ⟨it, List.mem_cons_self it t, h3⟩
    · obtain ⟨v, hv, hc⟩ := h2
      exact Or.inr ⟨v, List.mem_cons_of_mem _ hv, hc⟩

theorem insertDesc_perm (p : String × Nat) (l : List (String × Nat)) :
    (insertDesc p l).Perm (p :: l) := by
  induction l with
  | nil => exact List.Perm.refl _
  | cons q t ih =>
    unfold insertDesc
    by_cases h : q.2 ≤ p.2
    · rw [if_pos h]
    · rw [if_neg h]
      exact (ih.cons q).trans (List.Perm.swap p q t)

theorem sortDesc_perm (l : List (String × Nat)) : (sortDesc l).Perm l := by
  induction l with
  | nil => exact List.Perm.refl _
  | cons p t ih =>
    exact (insertDesc_perm p (sortDesc t)).trans (ih.cons p)

/-- Every entry of `value_counts l` pairs a value with its count in `l`. -/
theorem value_counts_mem {L : List String} {p : String × Nat}
    (h : p ∈ value_counts L) : p.2 = L.count p.1 := by
  unfold value_counts at h
  have h2 := (sortDesc_perm _).mem_iff.mp h
  obtain ⟨v, _, hv⟩ := List.mem_map.mp h2
  rw [← hv]

theorem uniqFirst_mem {l : List String} {x : String} :
    x ∈ uniqFirst l ↔ x ∈ l := by
  unfold uniqFirst
  rw [List.mem_reverse, List.mem_dedup, List.mem_reverse]

theorem value_counts_fst_perm (L : List String) :
    ((value_counts L).map Prod.fst).Perm (uniqFirst L) := by
  unfold value_counts
  have h := (sortDesc_perm ((uniqFirst L).map (fun v => (v, L.count v)))).map
    Prod.fst
  rwa [List.map_map, show (Prod.fst ∘ fun v => (v, L.count v)) = id from rfl,
    List.map_id] at h

/-! ### C4: emitted columns meet the positive-example threshold -/

/-- C4.  With filtering enabled (`min_positive_examples > 0`), every boolean
column emitted by `get_bool_df` has a true-count of at least
`min_positive_examples`, and in particular no emitted column has a
true-count of zero.  This holds even when distinct values collide on one
derived ASCII column name: the surviving column is the indicator of one of
the colliding values, whose frequency also meets the threshold. -/
theorem bool_df_min_positive (df : DataFrame) (cname : String) (m : ℤ)
    (bdf : BoolDF) (hm : 0 < m) (h : get_bool_df df cname m = some bdf) :
    ∀ c ∈ bdf.cols, m ≤ (c.2.count true : ℤ) ∧ c.2.count true ≠ 0 := by
  unfold get_bool_df at h
  rw [Option.map_eq_some'] at h
  obtain ⟨cv, hcv, hbdf⟩ := h
  subst hbdf
  intro c hc
  simp only [boolDFOf] at hc
  rcases foldl_dfAssign_mem (colName cname)
      (fun v => ((colRows df.index cv).filter
        (fun r => r.2 ∈ boolValsOf df.index cv m)).map (fun r => r.2 == v))
      (boolValsOf df.index cv m) [] c hc with h2 | h2
  · exact absurd h2 (List.not_mem_nil c)
  obtain ⟨v, hv, hcv2⟩ := h2
  subst hcv2
  -- the true-count of the indicator for `v` is the count of `v` in the
  -- NA-dropped data
  have hcnt : (List.map (fun r => r.2 == v)
      ((colRows df.index cv).filter
        (fun r => r.2 ∈ boolValsOf df.index cv m))).count true =
      ((colRows df.index cv).map Prod.snd).count v := by
    rw [List.count_eq_countP, List.countP_map, List.countP_filter,
      List.count_eq_countP, List.countP_map]
    apply List.countP_congr
    intro r _
    simp only [Function.comp_apply, Bool.and_eq_true, beq_iff_eq,
      decide_eq_true_eq]
    exact ⟨fun h2 => h2.1, fun h2 => ⟨h2, h2 ▸ hv⟩⟩
  -- `v` survived the frequency filter
  have hfreq : m ≤ (((colRows df.index cv).map Prod.snd).count v : ℤ) := by
    rw [boolValsOf] at hv
    simp only [if_pos hm] at hv
    obtain ⟨p, hp, hpv⟩ := List.mem_map.mp hv
    have hp2 := List.mem_filter.mp hp
    have hval := value_counts_mem hp2.1
    have hle : m ≤ (p.2 : ℤ) := by simpa using hp2.2
    rw [← hpv, ← hval]
    exact hle
  refine ⟨?_, ?_⟩
  · rw [hcnt]
    exact hfreq
  · rw [hcnt]
    omega

/-- When the derived names are fresh for the accumulator and pairwise
distinct, the assignment fold never overwrites: it appends one column per
value, in order. -/
theorem foldl_dfAssign_fresh (nameOf : String → String)
    (colOf : String → List Bool) (items : List String) :
    ∀ (acc : List (String × List Bool)),
      (∀ v ∈ items, ∀ a ∈ acc, ¬ a.1 = nameOf v) →
      (items.map nameOf).Nodup →
      items.foldl (fun a v => dfAssign a (nameOf v) (colOf v)) acc =
        acc ++ items.map (fun v => (nameOf v, colOf v)) := by
  induction items with
  | nil => intro acc _ _; simp
  | cons it t ih =>
    intro acc hfresh hnd
    simp only [List.foldl_cons]
    have hassign : dfAssign acc (nameOf it) (colOf it) =
        acc ++ [(nameOf it, colOf it)] := by
      unfold dfAssign
      rw [if_neg ?hany]
      case hany =>
        simp only [List.any_eq_true, beq_iff_eq, not_exists]
        rintro a ⟨ha, ha2⟩
        exact hfresh it (List.mem_cons_self it t) a ha ha2
    rw [hassign, ih (acc ++ [(nameOf it, colOf it)]) ?fresh2 ?nd2]
    · simp
    case fresh2 =>
      intro v hv a ha
      rcases List.mem_append.mp ha with h2 | h2
      · exact hfresh v (List.mem_cons_of_mem _ hv) a h2
      · have ha2 : a = (nameOf it, colOf it) := by simpa using h2
        rw [ha2]
        have hni : ¬ nameOf it ∈ t.map nameOf := by
          have h3 := hnd
          rw [List.map_cons, List.nodup_cons] at h3
          exact h3.1
        intro h4
        have h5 : nameOf it = nameOf v := h4
        exact hni (by rw [h5]; exact List.mem_map_of_mem nameOf hv)
    case nd2 =>
      have h3 := hnd
      rw [List.map_cons, List.nodup_cons] at h3
      exact h3.2

/-! ### C10: one-hot invariant of the expansion under distinct names -/

/-- C10.  Although the data model allows multi-label boolean tables, the
table `get_bool_df` builds is one-hot whenever the derived ASCII names of
the surviving values are pairwise distinct: every retained row is true in
exactly one emitted boolean column (the indicator of its own value). -/
theorem bool_df_one_hot (df : DataFrame) (cname : String) (m : ℤ)
    (cv : List (Option String))
    (hcv : (df.cols.find? (fun c => c.1 == cname)).map Prod.snd = some cv)
    (hnames : ((boolValsOf df.index cv m).map (colName cname)).Nodup) :
    ∀ bdf, get_bool_df df cname m = some bdf →
      ∀ i, i < bdf.index.length →
        bdf.cols.countP (fun c => c.2.getD i false) = 1 := by
  intro bdf h i hi
  unfold get_bool_df at h
  rw [hcv, Option.map_some'] at h
  obtain rfl := Option.some.injEq _ _ ▸ h.symm
  simp only [boolDFOf] at hi ⊢
  rw [foldl_dfAssign_fresh (colName cname) _ _ [] (by intro v _ a ha; cases ha)
    hnames]
  rw [List.nil_append, List.countP_map]
  rw [List.length_map] at hi
  -- the row's own value
  have hrow := List.getElem_mem (l := (colRows df.index cv).filter
    (fun r => r.2 ∈ boolValsOf df.index cv m)) (n := i) hi
  have hrowval : (((colRows df.index cv).filter
      (fun r => r.2 ∈ boolValsOf df.index cv m))[i]).2 ∈
      boolValsOf df.index cv m := by
    have h2 := List.mem_filter.mp hrow
    simpa using h2.2
  have hpt : ∀ v ∈ boolValsOf df.index cv m,
      (((fun c : String × List Bool => c.2.getD i false) ∘
        (fun v => (colName cname v,
          (((colRows df.index cv).filter
            (fun r => r.2 ∈ boolValsOf df.index cv m)).map
              (fun r => r.2 == v))))) v) =
      ((((colRows df.index cv).filter
        (fun r => r.2 ∈ boolValsOf df.index cv m))[i]).2 == v) := by
    intro v _
    simp only [Function.comp_apply, List.getD_eq_getElem?_getD,
      List.getElem?_map, List.getElem?_eq_getElem hi, Option.map_some',
      Option.getD_some]
  rw [List.countP_congr (fun v hv => by rw [hpt v hv])]
  -- count of the row's value among the distinct surviving values is 1
  have hnodup : (boolValsOf df.index cv m).Nodup := hnames.of_map _
  have hcount := List.count_eq_one_of_mem hnodup hrowval
  rw [← hcount, List.count_eq_countP]
  apply List.countP_congr
  intro v _
  simp only [beq_iff_eq]
  exact eq_comm

/-! ### C5: one column per distinct value when filtering is disabled -/

/-- C5 (amended).  With filtering disabled (`min_positive_examples ≤ 0`)
and PROVIDED the derived ASCII column names of the distinct non-missing
values are pairwise distinct, `get_bool_df` returns one boolean column per
distinct non-missing value, and the column derived from value `v` has
true-count equal to `v`'s frequency in the NA-dropped data.  (Without the
name-distinctness proviso the claim fails: colliding names overwrite,
see the counterexample.) -/
theorem bool_df_columns_of_distinct_names (df : DataFrame) (cname : String)
    (m : ℤ) (cv : List (Option String)) (bdf : BoolDF)
    (hm : m ≤ 0)
    (hcv : (df.cols.find? (fun c => c.1 == cname)).map Prod.snd = some cv)
    (hnames : ((boolValsOf df.index cv m).map (colName cname)).Nodup)
    (h : get_bool_df df cname m = some bdf) :
    bdf.cols.length =
      (uniqFirst ((colRows df.index cv).map Prod.snd)).length ∧
    ∀ v ∈ uniqFirst ((colRows df.index cv).map Prod.snd),
      ∃ c ∈ bdf.cols, c.1 = colName cname v ∧
        c.2.count true = ((colRows df.index cv).map Prod.snd).count v := by
  unfold get_bool_df at h
  rw [hcv, Option.map_some'] at h
  obtain rfl := Option.some.injEq _ _ ▸ h.symm
  have hvals_eq : boolValsOf df.index cv m =
      (value_counts ((colRows df.index cv).map Prod.snd)).map Prod.fst := by
    rw [boolValsOf]
    simp only [if_neg (by omega : ¬ 0 < m)]
  have hperm : (boolValsOf df.index cv m).Perm
      (uniqFirst ((colRows df.index cv).map Prod.snd)) := by
    rw [hvals_eq]
    exact value_counts_fst_perm _
  have hall : ∀ r ∈ colRows df.index cv, r.2 ∈ boolValsOf df.index cv m := by
    intro r hr
    exact hperm.mem_iff.mpr (uniqFirst_mem.mpr (List.mem_map_of_mem _ hr))
  have hfilter : (colRows df.index cv).filter
      (fun r => r.2 ∈ boolValsOf df.index cv m) = colRows df.index cv :=
    List.filter_eq_self.mpr (fun r hr => by simpa using hall r hr)
  simp only [boolDFOf]
  rw [foldl_dfAssign_fresh (colName cname) _ _ []
    (fun v _ a ha => absurd ha (List.not_mem_nil a)) hnames,
    List.nil_append]
  constructor
  · rw [List.length_map, hperm.length_eq]
  · intro v hv
    have hv2 : v ∈ boolValsOf df.index cv m := hperm.mem_iff.mpr hv
    refine ⟨(colName cname v,
      ((colRows df.index cv).filter
        (fun r => r.2 ∈ boolValsOf df.index cv m)).map (fun r => r.2 == v)),
      List.mem_map_of_mem _ hv2, rfl, ?_⟩
    rw [hfilter, List.count_eq_countP, List.countP_map,
      List.count_eq_countP, List.countP_map]
    apply List.countP_congr
    intro r _
    simp

/-- The categorical column of the C5 counterexample: the distinct values
"a b" and "a_b" both derive the ASCII column name "c_a_b". -/
def exC5cv : List (Option String) := [some "a b", some "a b", some "a_b"]

/-- Concrete dataset refuting C5 as stated. -/
def exC5 : DataFrame := ⟨["r1", "r2", "r3"], [("c", exC5cv)]⟩

/-- C5 counterexample.  On `exC5` with filtering disabled there are two
distinct non-missing values, but the returned table has a single boolean
column: the indicator of "a b" is assigned under the name "c_a_b" and then
overwritten by the indicator of "a_b", which derives the same name. -/
theorem bool_df_distinct_counterexample :
    (get_bool_df exC5 "c" (-1)).map (fun b => b.cols.length) = some 1 ∧
    (uniqFirst ((colRows exC5.index exC5cv).map Prod.snd)).length = 2 ∧
    (get_bool_df exC5 "c" (-1)).map (fun b => b.cols.length) ≠
      some (uniqFirst ((colRows exC5.index exC5cv).map Prod.snd)).length := by
  refine ⟨by decide, by decide, by decide⟩

/-! ### Concrete witnesses for the label filter -/

/-- The categorical column of the witness dataset: "drama" twice, "comedy"
once, one missing value. -/
def wCV : List (Option String) :=
  [some "drama", some "drama", some "comedy", none]

/-- Witness dataset for the label-filter theorems. -/
def wDF : DataFrame := ⟨["r1", "r2", "r3", "r4"], [("genre", wCV)]⟩

/-- The table produced with threshold 2 (only "drama" survives). -/
def wBdf : BoolDF := (get_bool_df wDF "genre" 2).getD ⟨[], []⟩

/-- The table produced with filtering disabled. -/
def wBdf1 : BoolDF := (get_bool_df wDF "genre" (-1)).getD ⟨[], []⟩

/-- Witness for C4: the threshold theorem applied to the concrete run with
`min_positive_examples = 2`, at its emitted column. -/
theorem bool_df_min_positive_witness :
    (2 : ℤ) ≤ ((("genre_drama", [true, true]) :
        String × List Bool).2.count true : ℤ) ∧
      (("genre_drama", [true, true]) :
        String × List Bool).2.count true ≠ 0 :=
  bool_df_min_positive wDF "genre" 2 wBdf (by norm_num) (by decide)
    ("genre_drama", [true, true]) (by decide)

/-- Witness for the amended C5: on the concrete run with distinct derived
names, the number of emitted columns equals the number of distinct
non-missing values. -/
theorem bool_df_columns_of_distinct_names_witness :
    wBdf1.cols.length =
      (uniqFirst ((colRows wDF.index wCV).map Prod.snd)).length :=
  (bool_df_columns_of_distinct_names wDF "genre" (-1) wCV wBdf1
    (by norm_num) (by decide) (by decide) (by decide)).1

/-- Witness for C10: row 0 of the concrete expansion is true in exactly
one emitted column. -/
theorem bool_df_one_hot_witness :
    wBdf1.cols.countP (fun c => c.2.getD 0 false) = 1 :=
  bool_df_one_hot wDF "genre" (-1) wCV (by decide) (by decide) wBdf1
    (by decide) 0 (by decide)

/-! ### C8: the subsampler (dataset.py lines 81-92) -/

/-- `df.iloc[p]` for a string-column table. -/
def reindexDF (df : DataFrame) (p : List Nat) : DataFrame :=
  ⟨reorder df.index p, df.cols.map (fun c => (c.1, reorder c.2 p))⟩

/-- `subsample_dataset(df, num_images, random_seed)` (dataset.py 81-92):
return `df` unchanged when `num_images < 0` or `num_images >= df.shape[0]`;
otherwise seed the generator and take the first `num_images` rows of a
random permutation. -/
def subsample_dataset (rng : Rng) (g : Nat) (df : DataFrame) (num_images : ℤ)
    (random_seed : Nat) : DataFrame :=
  if num_images < 0 ∨ (df.index.length : ℤ) ≤ num_images then df
  else
    reindexDF df ((rng.perm (npSeed g random_seed) df.index.length).take
      num_images.toNat)

theorem reorder_length {α : Type} (l : List α) (p : List Nat)
    (h : ∀ i ∈ p, i < l.length) : (reorder l p).length = p.length := by
  induction p with
  | nil => rfl
  | cons i t ih =>
    unfold reorder at ih ⊢
    rw [List.filterMap_cons,
      List.getElem?_eq_getElem (h i (List.mem_cons_self i t))]
    simp only [List.length_cons]
    rw [ih (fun j hj => h j (List.mem_cons_of_mem _ hj))]

/-- C8.  `subsample_dataset` returns exactly `min(num_images, N)` rows when
`num_images ≥ 0`, and returns the dataset itself — same rows, same order,
no permutation applied — when `num_images < 0` or `num_images ≥ N`. -/
theorem subsample_row_count_spec (rng : Rng) (g : Nat) (df : DataFrame)
    (k : ℤ) (s : Nat) :
    (0 ≤ k → ((subsample_dataset rng g df k s).index.length : ℤ) =
      min k (df.index.length : ℤ)) ∧
    ((k < 0 ∨ (df.index.length : ℤ) ≤ k) →
      subsample_dataset rng g df k s = df) := by
  constructor
  · intro hk
    by_cases hcond : k < 0 ∨ (df.index.length : ℤ) ≤ k
    · rw [subsample_dataset, if_pos hcond]
      omega
    · rw [subsample_dataset, if_neg hcond]
      have hperm := rng.perm_isPerm (npSeed g s) df.index.length
      have hmem : ∀ i ∈ (rng.perm (npSeed g s) df.index.length).take k.toNat,
          i < df.index.length := by
        intro i hi
        exact List.mem_range.mp (hperm.mem_iff.mp (List.mem_of_mem_take hi))
      have hlen : (reindexDF df ((rng.perm (npSeed g s)
          df.index.length).take k.toNat)).index.length =
          ((rng.perm (npSeed g s) df.index.length).take k.toNat).length :=
        reorder_length df.index _ hmem
      rw [hlen, List.length_take, hperm.length_eq, List.length_range]
      omega
  · intro hcond
    rw [subsample_dataset, if_pos hcond]

/-- Witness for C8: the row-count clause at `num_images = 2` on a 4-row
dataset, and the unchanged clause at `num_images = -1`. -/
theorem subsample_row_count_spec_witness :
    ((subsample_dataset idRng 0 wDF 2 42).index.length : ℤ) =
      min 2 (wDF.index.length : ℤ) ∧
    subsample_dataset idRng 0 wDF (-1) 42 = wDF :=
  ⟨(subsample_row_count_spec idRng 0 wDF 2 42).1 (by norm_num),
   (subsample_row_count_spec idRng 0 wDF (-1) 42).2 (Or.inl (by norm_num))⟩

/-! ### The image resolver: `fetch_image_filenames_for_ids`
(dataset.py lines 95-141) -/

/-- The Python errors the resolver can raise: the `NameError` on the local
variable `urls` — which is only assigned in the URL branch but read
unconditionally by `zip(filenames, urls)` at line 126 — and the failed
`assert 'image_url' in df.columns`. -/
inductive PyErr where
  | nameErrorUrls
  | assertionFailed
deriving DecidableEq

/-- The network and file system behind `requests.get` + `open/write`: a
deterministic oracle mapping a URL to either the fetched-and-written
content or the raised exception message (covering network errors, write
errors and decode errors alike). -/
structure Web where
  fetch : String → Except String String

/-- The deterministic cache path
`{config['images']}/{dataset_name}/{image_id}.jpg` (dataset.py 117-122). -/
def cachePath (imagesRoot dsName imageId : String) : String :=
  imagesRoot ++ "/" ++ dsName ++ "/" ++ imageId ++ ".jpg"

/-- `df['image_url'].loc[image_id]`: the URL stored for an identifier;
`none` when the entry is NaN or the identifier is absent (old pandas
reindexing yields NaN rather than raising), in which case the subsequent
`requests.get` raises and the identifier is skipped. -/
def locLookup (index : List String) (vals : List (Option String))
    (id : String) : Option String :=
  match (index.zip vals).find? (fun p => p.1 == id) with
  | none => none
  | some p => p.2

/-- The resolution loop (dataset.py 125-141) over (cache path, URL) pairs,
threading the disk (the set of existing paths) and returning
(good_filenames, final disk, attempted fetch URLs).  A path already on
disk is accepted with no fetch; otherwise the URL is fetched and written
(the path joins the disk) and accepted; any raised error is logged and the
identifier skipped, the loop continuing with the rest. -/
def fetchLoop (web : Web) : List String → List (String × Option String) →
    List String × List String × List String
  | disk, [] => ([], disk, [])
  | disk, (f, u) :: rest =>
    if f ∈ disk then
      let r := fetchLoop web disk rest
      (f :: r.1, r.2.1, r.2.2)
    else
      match u with
      | none => fetchLoop web disk rest
      | some url =>
        match web.fetch url with
        | .ok _ =>
          let r := fetchLoop web (f :: disk) rest
          (f :: r.1, r.2.1, url :: r.2.2)
        | .error _ =>
          let r := fetchLoop web disk rest
          (r.1, r.2.1, url :: r.2.2)

/-- `fetch_image_filenames_for_ids(image_ids, dataset_name)`
(dataset.py 95-141), with the loaded dataset, the disk state, and the
network oracle made explicit.  In the `image_filename` branch the source
reaches `zip(filenames, urls)` with `urls` never assigned, raising
`NameError`; in the URL branch it computes the cache paths and URLs and
runs the loop. -/
def fetch_image_filenames_for_ids (web : Web) (disk : List String)
    (df : DataFrame) (image_ids : List String)
    (dataset_name imagesRoot : String) :
    Except PyErr (List String × List String × List String) :=
  if "image_filename" ∈ df.cols.map Prod.fst then
    .error .nameErrorUrls
  else
    match (df.cols.find? (fun c => c.1 == "image_url")).map Prod.snd with
    | none => .error .assertionFailed
    | some urlCol =>
      .ok (fetchLoop web disk
        ((image_ids.map (cachePath imagesRoot dataset_name)).zip
          (image_ids.map (locLookup df.index urlCol))))

/-! ### Case equations of the loop -/

theorem fetchLoop_hit (web : Web) (disk : List String) (f : String)
    (u : Option String) (rest : List (String × Option String))
    (hf : f ∈ disk) :
    fetchLoop web disk ((f, u) :: rest) =
      (f :: (fetchLoop web disk rest).1, (fetchLoop web disk rest).2.1,
        (fetchLoop web disk rest).2.2) := by
  simp [fetchLoop, hf]

theorem fetchLoop_nourl (web : Web) (disk : List String) (f : String)
    (rest : List (String × Option String)) (hf : ¬ f ∈ disk) :
    fetchLoop web disk ((f, none) :: rest) = fetchLoop web disk rest := by
  simp [fetchLoop, hf]

theorem fetchLoop_ok (web : Web) (disk : List String) (f url c : String)
    (rest : List (String × Option String)) (hf : ¬ f ∈ disk)
    (hw : web.fetch url = .ok c) :
    fetchLoop web disk ((f, some url) :: rest) =
      (f :: (fetchLoop web (f :: disk) rest).1,
        (fetchLoop web (f :: disk) rest).2.1,
        url :: (fetchLoop web (f :: disk) rest).2.2) := by
  simp [fetchLoop, hf, hw]

theorem fetchLoop_err (web : Web) (disk : List String) (f url e : String)
    (rest : List (String × Option String)) (hf : ¬ f ∈ disk)
    (hw : web.fetch url = .error e) :
    fetchLoop web disk ((f, some url) :: rest) =
      ((fetchLoop web disk rest).1, (fetchLoop web disk rest).2.1,
        url :: (fetchLoop web disk rest).2.2) := by
  simp [fetchLoop, hf, hw]

/-- Invariants of the resolution loop: the disk only grows; every returned
path is on the final disk; the result is a subsequence of the cache paths
in input order; a path already on disk is accepted; every attempted fetch
belongs to a pair whose path was not initially on disk. -/
theorem fetchLoop_spec (web : Web) (pairs : List (String × Option String)) :
    ∀ disk : List String,
      (∀ d ∈ disk, d ∈ (fetchLoop web disk pairs).2.1) ∧
      (∀ f ∈ (fetchLoop web disk pairs).1,
        f ∈ (fetchLoop web disk pairs).2.1) ∧
      (fetchLoop web disk pairs).1.Sublist (pairs.map Prod.fst) ∧
      (∀ p ∈ pairs, p.1 ∈ disk → p.1 ∈ (fetchLoop web disk pairs).1) ∧
      (∀ u ∈ (fetchLoop web disk pairs).2.2,
        ∃ p ∈ pairs, p.2 = some u ∧ ¬ p.1 ∈ disk) := by
  induction pairs with
  | nil =>
    intro disk
    refine ⟨fun d hd => hd, ?_, ?_, ?_, ?_⟩ <;> simp [fetchLoop]
  | cons pr rest ih =>
    intro disk
    obtain ⟨f, u⟩ := pr
    by_cases hf : f ∈ disk
    · rw [fetchLoop_hit web disk f u rest hf]
      obtain ⟨ih1, ih2, ih3, ih4, ih5⟩ := ih disk
      refine ⟨ih1, ?_, ih3.cons₂ f, ?_, ?_⟩
      · intro x hx
        rcases List.mem_cons.mp hx with rfl | hx2
        · exact ih1 x hf
        · exact ih2 x hx2
      · intro p hp hpd
        rcases List.mem_cons.mp hp with rfl | hp2
        · exact List.mem_cons_self _ _
        · exact List.mem_cons_of_mem _ (ih4 p hp2 hpd)
      · intro x hx
        obtain ⟨p, hp, hp2⟩ := ih5 x hx
        exact ⟨p, List.mem_cons_of_mem _ hp, hp2⟩
    · cases u with
      | none =>
        rw [fetchLoop_nourl web disk f rest hf]
        obtain ⟨ih1, ih2, ih3, ih4, ih5⟩ := ih disk
        refine ⟨ih1, ih2, ih3.cons _, ?_, ?_⟩
        · intro p hp hpd
          rcases List.mem_cons.mp hp with rfl | hp2
          · exact absurd hpd hf
          · exact ih4 p hp2 hpd
        · intro x hx
          obtain ⟨p, hp, hp2⟩ := ih5 x hx
          exact ⟨p, List.mem_cons_of_mem _ hp, hp2⟩
      | some url =>
        cases hw : web.fetch url with
        | ok c =>
          rw [fetchLoop_ok web disk f url c rest hf hw]
          obtain ⟨ih1, ih2, ih3, ih4, ih5⟩ := ih (f :: disk)
          refine ⟨?_, ?_, ih3.cons₂ f, ?_, ?_⟩
          · intro d hd
            exact ih1 d (List.mem_cons_of_mem _ hd)
          · intro x hx
            rcases List.mem_cons.mp hx with rfl | hx2
            · exact ih1 x (List.mem_cons_self _ _)
            · exact ih2 x hx2
          · intro p hp hpd
            rcases List.mem_cons.mp hp with rfl | hp2
            · exact List.mem_cons_self _ _
            · exact List.mem_cons_of_mem _
                (ih4 p hp2 (List.mem_cons_of_mem _ hpd))
          · intro x hx
            rcases List.mem_cons.mp hx with rfl | hx2
            · exact ⟨(f, some x), List.mem_cons_self _ _, rfl, hf⟩
            · obtain ⟨p, hp, hp2, hp3⟩ := ih5 x hx2
              refine ⟨p, List.mem_cons_of_mem _ hp, hp2, fun hc => ?_⟩
              exact hp3 (List.mem_cons_of_mem _ hc)
        | error e =>
          rw [fetchLoop_err web disk f url e rest hf hw]
          obtain ⟨ih1, ih2, ih3, ih4, ih5⟩ := ih disk
          refine ⟨ih1, ih2, ih3.cons _, ?_, ?_⟩
          · intro p hp hpd
            rcases List.mem_cons.mp hp with rfl | hp2
            · exact absurd hpd hf
            · exact ih4 p hp2 hpd
          · intro x hx
            rcases List.mem_cons.mp hx with rfl | hx2
            · exact ⟨(f, some x), List.mem_cons_self _ _, rfl, hf⟩
            · obtain ⟨p, hp, hp2⟩ := ih5 x hx2
              exact ⟨p, List.mem_cons_of_mem _ hp, hp2⟩

/-! ### C6: the URL branch of the resolver -/

/-- C6.  In the URL branch (no local-path column, URL column present):
every returned path exists on disk at return time; the returned list is a
subsequence of the identifiers' cache paths, so resolved identifiers keep
their relative input order; an identifier whose cache path already exists
is accepted; every network fetch attempted belongs to a pair whose cache
path was not already on disk (cache hits incur no fetch); and when a fetch
raises, the identifier is dropped while the loop continues on the rest
with the same result and disk. -/
theorem fetch_url_branch_spec (web : Web) (disk : List String)
    (df : DataFrame) (ids : List String) (dsname root : String)
    (urlCol : List (Option String)) (good disk2 log : List String)
    (hlocal : ¬ "image_filename" ∈ df.cols.map Prod.fst)
    (hurl : (df.cols.find? (fun c => c.1 == "image_url")).map Prod.snd =
      some urlCol)
    (h : fetch_image_filenames_for_ids web disk df ids dsname root =
      .ok (good, disk2, log)) :
    (∀ f ∈ good, f ∈ disk2) ∧
    good.Sublist (ids.map (cachePath root dsname)) ∧
    (∀ p ∈ (ids.map (cachePath root dsname)).zip
        (ids.map (locLookup df.index urlCol)),
      p.1 ∈ disk → p.1 ∈ good) ∧
    (∀ u ∈ log, ∃ p ∈ (ids.map (cachePath root dsname)).zip
        (ids.map (locLookup df.index urlCol)),
      p.2 = some u ∧ ¬ p.1 ∈ disk) ∧
    (∀ (d2 : List String) (f url e : String)
      (rest2 : List (String × Option String)), ¬ f ∈ d2 →
      web.fetch url = .error e →
      (fetchLoop web d2 ((f, some url) :: rest2)).1 =
        (fetchLoop web d2 rest2).1 ∧
      (fetchLoop web d2 ((f, some url) :: rest2)).2.1 =
        (fetchLoop web d2 rest2).2.1) := by
  unfold fetch_image_filenames_for_ids at h
  rw [if_neg hlocal, hurl] at h
  simp only [Except.ok.injEq] at h
  obtain ⟨s1, s2, s3, s4, s5⟩ := fetchLoop_spec web
    ((ids.map (cachePath root dsname)).zip
      (ids.map (locLookup df.index urlCol))) disk
  rw [h] at s1 s2 s3 s4 s5
  have hfst : ((ids.map (cachePath root dsname)).zip
      (ids.map (locLookup df.index urlCol))).map Prod.fst =
      ids.map (cachePath root dsname) :=
    List.map_fst_zip _ _ (by rw [List.length_map, List.length_map])
  refine ⟨s2, ?_, s4, s5, ?_⟩
  · rw [← hfst]
    exact s3
  · intro d2 f url e rest2 hf hw
    rw [fetchLoop_err web d2 f url e rest2 hf hw]
    exact ⟨rfl, rfl⟩

/-- A network oracle on which every fetch raises. -/
def errWeb : Web := ⟨fun _ => .error "connection refused"⟩

/-- The registered dataset of the C6 witness: a URL column, no local-path
column. -/
def exC6 : DataFrame :=
  ⟨["id1", "id2"],
   [("image_url", [some "http://u/1.jpg", some "http://u/2.jpg"])]⟩

/-- Witness for C6: with "id1"'s cache path pre-existing and every fetch
raising, the run returns exactly the pre-existing path, and that list is a
subsequence of the two cache paths (the theorem applied at this run). -/
theorem fetch_url_branch_spec_witness :
    (["/imgs/d/id1.jpg"] : List String).Sublist
      (["id1", "id2"].map (cachePath "/imgs" "d")) :=
  (fetch_url_branch_spec errWeb ["/imgs/d/id1.jpg"] exC6 ["id1", "id2"]
    "d" "/imgs" [some "http://u/1.jpg", some "http://u/2.jpg"]
    ["/imgs/d/id1.jpg"] ["/imgs/d/id1.jpg"] ["http://u/2.jpg"]
    (by decide) (by decide) rfl).2.1

/-! ### C7: the local-path branch raises `NameError` -/

/-- A dataset exposing a direct local-path column. -/
def exC7 : DataFrame := ⟨["id1"], [("image_filename", [some "/data/id1.jpg"])]⟩

/-- A network oracle on which every fetch succeeds (irrelevant to the
branch taken, supplied for concreteness). -/
def okWeb : Web := ⟨fun _ => .ok "bytes"⟩

/-- C7 (code bug).  On any dataset exposing the `image_filename` column
the resolver raises `NameError` instead of resolving the identifiers: the
loop header `zip(filenames, urls)` reads the local variable `urls`, which
is assigned only in the URL branch.  Evaluated here at a registered
dataset with one identifier. -/
theorem fetch_local_branch_name_error :
    fetch_image_filenames_for_ids okWeb [] exC7 ["id1"] "myset" "/imgs" =
      .error .nameErrorUrls := rfl

end Vislab
